import Mathlib

/-!
Verification of the chunked-upload core of `onedrive-file-uploader`
(`src/graph.ts`, `src/upload-queue.ts`), shallowly embedded in Lean 4.

JavaScript numbers that flow through `calculateBytesRange` are modelled by
`JSNum`: `NaN`, the two infinities, and finite values as exact decimals
`n / 10 ^ e` (every value the code produces here is of that form).  Strings
are modelled as `List Char`.
-/

set_option maxRecDepth 4000

instance {ε α : Type} [DecidableEq ε] [DecidableEq α] : DecidableEq (Except ε α) := fun x y =>
  match x, y with
  | .error a, .error b =>
    if h : a = b then .isTrue (by rw [h]) else .isFalse (by intro hc; cases hc; exact h rfl)
  | .error _, .ok _ => .isFalse (by intro hc; cases hc)
  | .ok _, .error _ => .isFalse (by intro hc; cases hc)
  | .ok a, .ok b =>
    if h : a = b then .isTrue (by rw [h]) else .isFalse (by intro hc; cases hc; exact h rfl)

namespace Uploader

/-- `10 ^ k` as an integer, by structural recursion (kernel-reducible). -/
def pow10 : ℕ → Int
  | 0 => 1
  | k + 1 => 10 * pow10 k

/-- A JavaScript number as it can appear in `calculateBytesRange`:
`NaN`, `Infinity`, `-Infinity`, or a finite value.  A finite value is kept
exactly as a decimal `n / 10 ^ e` (every number the code manipulates here is
parsed from decimal digit strings or produced by `+`/`-`/`min` on such
values, so this representation is exact; integers always carry `e = 0`). -/
inductive JSNum where
  | nan    : JSNum
  | inf    : JSNum
  | negInf : JSNum
  | num    : Int → ℕ → JSNum
deriving DecidableEq, Repr

namespace JSNum

/-- The rational value of the finite `JSNum` `num n e`. -/
def val (n : Int) (e : ℕ) : ℚ := (n : ℚ) / 10 ^ e

/-- JavaScript `+` on numbers. -/
def jsAdd : JSNum → JSNum → JSNum
  | nan, _ => nan
  | _, nan => nan
  | inf, negInf => nan
  | negInf, inf => nan
  | inf, _ => inf
  | _, inf => inf
  | negInf, _ => negInf
  | _, negInf => negInf
  | num a i, num b j => num (a * pow10 j + b * pow10 i) (i + j)

/-- JavaScript unary minus. -/
def jsNeg : JSNum → JSNum
  | nan => nan
  | inf => negInf
  | negInf => inf
  | num a i => num (-a) i

/-- JavaScript `-` on numbers. -/
def jsSub (a b : JSNum) : JSNum := jsAdd a (jsNeg b)

/-- JavaScript `Math.min` (any `NaN` argument yields `NaN`; on finite values
it returns the argument with the smaller value). -/
def jsMin : JSNum → JSNum → JSNum
  | nan, _ => nan
  | _, nan => nan
  | negInf, _ => negInf
  | _, negInf => negInf
  | inf, b => b
  | a, inf => a
  | num a i, num b j => if a * pow10 j ≤ b * pow10 i then num a i else num b j

/-- JavaScript `<=` on numbers (`false` whenever either side is `NaN`). -/
def jsLe : JSNum → JSNum → Bool
  | nan, _ => false
  | _, nan => false
  | negInf, _ => true
  | _, negInf => false
  | _, inf => true
  | inf, _ => false
  | num a i, num b j => a * pow10 j ≤ b * pow10 i

end JSNum

open JSNum

/-! ### JS string primitives used by `calculateBytesRange` -/

/-- Numeric value of a digit string (the value `Number`/`parseInt` assigns to
a run of decimal digits). -/
def digitsVal (l : List Char) : ℕ :=
  l.foldl (fun a c => 10 * a + (c.toNat - 48)) 0

/-- JavaScript `String.prototype.trim` on a character list
(ASCII whitespace; the additional Unicode space characters JS also trims
never occur in the protocol strings handled here). -/
def trimChars (l : List Char) : List Char :=
  ((l.dropWhile Char.isWhitespace).reverse.dropWhile Char.isWhitespace).reverse

/-- JavaScript `str.split(sep)` for a one-character separator: splits on every
occurrence and keeps empty pieces, `"".split(sep) = [""]`. -/
def jsSplit (sep : Char) : List Char → List (List Char)
  | [] => [[]]
  | c :: cs =>
    if c = sep then [] :: jsSplit sep cs
    else
      match jsSplit sep cs with
      | [] => [[c]]
      | p :: ps => (c :: p) :: ps

/-- The unsigned part of a JS numeric string: `Infinity`, or decimal digits
with an optional fraction.  Anything else is `NaN`.  (The exotic literal
forms `Number` also accepts — hex/binary/octal prefixes and exponents —
never occur in upload-range strings and are conservatively mapped to `NaN`.) -/
def jsNumUnsigned (l : List Char) : JSNum :=
  if l = ['I', 'n', 'f', 'i', 'n', 'i', 't', 'y'] then .inf
  else
    let ip := l.takeWhile Char.isDigit
    match l.drop ip.length with
    | [] => if ip = [] then .nan else .num (digitsVal ip) 0
    | '.' :: fp =>
      if fp.all Char.isDigit ∧ (ip ≠ [] ∨ fp ≠ []) then
        .num ((digitsVal ip : Int) * pow10 fp.length + (digitsVal fp : Int)) fp.length
      else .nan
    | _ => .nan

/-- JavaScript `Number(str)`: trim, empty string is `0`, optional sign,
then an unsigned numeric literal. -/
def jsNumber (s : List Char) : JSNum :=
  match trimChars s with
  | [] => .num 0 0
  | '+' :: rest => jsNumUnsigned rest
  | '-' :: rest => jsNeg (jsNumUnsigned rest)
  | t => jsNumUnsigned t

/-! ### `calculateBytesRange` (src/graph.ts, lines 291–336) -/

/-- `MIN_CHUNK_SIZE` — 320 KB (src/graph.ts line 14). -/
def MIN_CHUNK_SIZE : Int := 327680

/-- `MAX_CHUNK_SIZE` — 50 MB (src/graph.ts line 15). -/
def MAX_CHUNK_SIZE : Int := 1024 * 1024 * 50

/-- The fields of a Graph `UploadSession` that the upload loop reads:
`uploadUrl` and `nextExpectedRanges` (`none` models an absent / non-array
field, matching the `!Array.isArray(...)` check). -/
structure UploadSession where
  uploadUrl : Option String
  nextExpectedRanges : Option (List (List Char))
deriving DecidableEq, Repr

/-- The record `{ start, end, chunkSize }` returned by `calculateBytesRange`
(`end` is a Lean keyword, hence the field name `end_`;
`chunkSize` is the byte count `end - start + 1`). -/
structure BytesRange where
  start : JSNum
  end_ : JSNum
  chunkSize : JSNum
deriving DecidableEq, Repr

/-- The three `throw` sites of `calculateBytesRange`, in source order
("Default chunk size is out of range…", "…not a multiple of minimum chunk
size…", "File size is smaller than chunk size…").  The spec's error
taxonomy calls all three `ValidationError`. -/
inductive ValidationError where
  | chunkSizeOutOfRange
  | chunkSizeNotMultiple
  | fileSmallerThanChunk
deriving DecidableEq, Repr

/-- `let start = startStr ? Number(startStr) : 0` where
`const [startStr, endStr] = nextExpectedRange.split("-")`
(src/graph.ts lines 323–326). -/
def rangeStart (entry : List Char) : JSNum :=
  let startStr := (jsSplit '-' entry).headD []
  if startStr ≠ [] then jsNumber startStr else .num 0 0

/-- `let end = endStr && endStr.trim() !== "" ? Number(endStr)
: start + chunkSize - 1` (src/graph.ts lines 327–328); `none` models an
`undefined` `endStr` (the entry contained no `"-"`). -/
def rangeEnd0 (chunkSize : Int) (entry : List Char) : JSNum :=
  match (jsSplit '-' entry).get? 1 with
  | some e =>
    if e ≠ [] ∧ trimChars e ≠ [] then jsNumber e
    else jsAdd (rangeStart entry) (.num (chunkSize - 1) 0)
  | none => jsAdd (rangeStart entry) (.num (chunkSize - 1) 0)

/-- `calculateBytesRange(fileSize, chunkSize, session)` (src/graph.ts
291–336).  `fileSize` and `chunkSize` are integer byte counts (the callers
pass `file.size` and `1024*1024*5`); a thrown `Error` is `Except.error`. -/
def calculateBytesRange (fileSize chunkSize : Int) (session : UploadSession) :
    Except ValidationError BytesRange :=
  if chunkSize < MIN_CHUNK_SIZE ∨ chunkSize > MAX_CHUNK_SIZE then
    .error .chunkSizeOutOfRange
  else if chunkSize % MIN_CHUNK_SIZE ≠ 0 then
    .error .chunkSizeNotMultiple
  else if fileSize < chunkSize then
    .error .fileSmallerThanChunk
  else
    match session.nextExpectedRanges with
    | none => .ok ⟨.num 0 0, .num (chunkSize - 1) 0, .num chunkSize 0⟩
    | some [] => .ok ⟨.num 0 0, .num (chunkSize - 1) 0, .num chunkSize 0⟩
    | some (nextExpectedRange :: _) =>
      let start := rangeStart nextExpectedRange
      let end0 := rangeEnd0 chunkSize nextExpectedRange
      let end1 := jsMin end0 (jsAdd start (.num (chunkSize - 1) 0))
      let end2 := jsMin end1 (.num (fileSize - 1) 0)
      .ok ⟨start, end2, jsAdd (jsSub end2 start) (.num 1 0)⟩

/-! ### Retry policy (src/graph.ts 341–440) -/

/-- An `Error` value as the retry logic inspects it: the `isNetworkError`
tag, the numeric `status` field when attached (`some 0` is falsy in JS and
falls through to the message fallback, like an absent field), and the
message text.  The code only ever throws `Error` instances, so the
`error instanceof Error` guard is always passed here. -/
structure JsError where
  isNetworkError : Bool
  status : Option Int
  message : List Char
deriving DecidableEq, Repr

/-- `isRetryableStatus` (src/graph.ts 341–350). -/
def isRetryableStatus (status : Int) : Bool :=
  status = 429 || status = 500 || status = 502 || status = 503 || status = 504

/-- `hay.includes(needle)` on character lists. -/
def includesChars (needle : List Char) : List Char → Bool
  | [] => needle.isEmpty
  | c :: t => needle.isPrefixOf (c :: t) || includesChars needle t

/-- The transient-substring test on the error message (src/graph.ts
396–401): `message.includes("fetch") || message.includes("network") ||
message.includes("ECONNRESET") || message.includes("ETIMEDOUT")`. -/
def messageMatchesTransient (msg : List Char) : Bool :=
  includesChars "fetch".toList msg || includesChars "network".toList msg ||
    includesChars "ECONNRESET".toList msg || includesChars "ETIMEDOUT".toList msg

/-- One anchored match of `/status[:\s]+(\d+)/i`: the literal `status`
(case-insensitive), one or more `:`/whitespace characters, then a digit run
whose decimal value `parseInt` returns. -/
def matchStatusAt (l : List Char) : Option ℕ :=
  if (l.take 6).map Char.toLower = "status".toList then
    let r1 := l.drop 6
    let seps := r1.takeWhile fun c => c = ':' || c.isWhitespace
    if seps.isEmpty then none
    else
      let ds := (r1.drop seps.length).takeWhile Char.isDigit
      if ds.isEmpty then none else some (digitsVal ds)
  else none

/-- `error.message.match(/status[:\s]+(\d+)/i)` followed by `parseInt` on
the capture (src/graph.ts 411–416): the regex engine takes the earliest
starting position that matches. -/
def extractStatusFromMessage : List Char → Option ℕ
  | [] => none
  | c :: t =>
    match matchStatusAt (c :: t) with
    | some n => some n
    | none => extractStatusFromMessage t

/-- The retryability classification of the `catch` block (src/graph.ts
386–418), in source order: the explicit network flag, then transient
substrings in the message, then a truthy numeric `status` field, then the
status-pattern fallback on the message text. -/
def isRetryableError (e : JsError) : Bool :=
  if e.isNetworkError then true
  else if messageMatchesTransient e.message then true
  else
    match e.status with
    | some s =>
      if s ≠ 0 then isRetryableStatus s
      else
        match extractStatusFromMessage e.message with
        | some st => isRetryableStatus st
        | none => false
    | none =>
      match extractStatusFromMessage e.message with
      | some st => isRetryableStatus st
      | none => false

/-- One backoff sleep (src/graph.ts 425–433): the base `delay` going in,
the drawn `jitter`, and the capped `backoffDelay` actually slept. -/
structure SleepEvent where
  delay : ℚ
  jitter : ℚ
  backoffDelay : ℚ
deriving DecidableEq, Repr

/-- Observable outcome of a `retryWithBackoff` run: the returned value or
thrown error, how many times `fn` was invoked, and the sleeps performed. -/
structure RetryTrace (T : Type) where
  result : Except JsError T
  calls : ℕ
  sleeps : List SleepEvent

/-- The `for` loop of `retryWithBackoff` (src/graph.ts 375–436).  `fn k` is
the outcome of the `k`-th invocation of `fn` (`Except.error` models a
throw); `rand k` is the `Math.random()` draw at attempt `k` (a real in
`[0, 1)`, modelled as `ℚ`); `rem` is the number of attempts still allowed
after the current one (`maxRetries - attempt`).  Delays are exact rationals;
`0.3` is `3 / 10`. -/
def retryLoop {T : Type} (fn : ℕ → Except JsError T) (rand : ℕ → ℚ)
    (maxDelay : ℚ) : ℕ → ℕ → ℚ → RetryTrace T
  | k, rem, delay =>
    match fn k with
    | .ok v => ⟨.ok v, 1, []⟩
    | .error e =>
      match rem with
      | 0 => ⟨.error e, 1, []⟩
      | rem + 1 =>
        if isRetryableError e then
          let jitter := rand k * (3 / 10) * delay
          let backoffDelay := min (delay + jitter) maxDelay
          let next := retryLoop fn rand maxDelay (k + 1) rem (min (delay * 2) maxDelay)
          ⟨next.result, next.calls + 1, ⟨delay, jitter, backoffDelay⟩ :: next.sleeps⟩
        else ⟨.error e, 1, []⟩

/-- `retryWithBackoff(fn, maxRetries, initialDelay, maxDelay)`
(src/graph.ts 366–440); `maxRetries` is a non-negative integer, as all
callers pass. -/
def retryWithBackoff {T : Type} (fn : ℕ → Except JsError T) (rand : ℕ → ℚ)
    (maxRetries : ℕ) (initialDelay maxDelay : ℚ) : RetryTrace T :=
  retryLoop fn rand maxDelay 0 maxRetries initialDelay

/-! ### Chunked upload loop (src/graph.ts 450–553) -/

/-- The fixed `const chunkSize = 1024 * 1024 * 5` of `uploadFileToSession`
(src/graph.ts line 470). -/
def uploadChunkSize : Int := 1024 * 1024 * 5

/-- One chunk PUT as the loop issues it (src/graph.ts 490–497): the target
URL, the `Content-Range` bounds `bytes {start}-{end}/{fileSize}`, and the
`Content-Length` value. -/
structure ChunkRequest where
  url : String
  start : JSNum
  end_ : JSNum
  contentLength : JSNum
  fileSize : Int
deriving DecidableEq, Repr

/-- A successful (`res.ok`) HTTP response as the loop sees it after
`retryWithBackoff`: the status and the parsed JSON body of type `β`. -/
structure HttpResponse (β : Type) where
  status : Int
  body : β

/-- Outcome of the upload loop.  `completed` carries the parsed response
body returned as the final `DriveItem` cast; `failed` is a thrown
`calculateBytesRange` error; `outOfFuel` marks a run whose loop was still
active when the iteration bound ran out. -/
inductive UploadResult (β : Type) where
  | completed : β → UploadResult β
  | failed : ValidationError → UploadResult β
  | outOfFuel : UploadResult β
deriving DecidableEq, Repr

/-- The `while (true)` loop of `uploadFileToSession` (src/graph.ts
474–552).  `transport k req` is the successful response the `k`-th chunk
PUT eventually got through its retry wrapper (a PUT whose retries exhaust
aborts the whole call; that path is `retryWithBackoff`'s, modelled above);
`asSession` is the `data as UploadSession` cast applied to a non-final
body.  Returns the requests issued in order, paired with the outcome. -/
def uploadLoop {β : Type} (asSession : β → UploadSession)
    (transport : ℕ → ChunkRequest → HttpResponse β)
    (fileSize : Int) (uploadUrl : String) :
    ℕ → ℕ → UploadSession → List ChunkRequest × UploadResult β
  | 0, _, _ => ([], .outOfFuel)
  | fuel + 1, k, currentSession =>
    match calculateBytesRange fileSize uploadChunkSize currentSession with
    | .error err => ([], .failed err)
    | .ok range =>
      let req : ChunkRequest :=
        ⟨uploadUrl, range.start, range.end_, range.chunkSize, fileSize⟩
      let response := transport k req
      if response.status = 200 ∨ response.status = 201 then
        ([req], .completed response.body)
      else
        let rest :=
          uploadLoop asSession transport fileSize uploadUrl fuel (k + 1)
            (asSession response.body)
        (req :: rest.1, rest.2)

/-- `uploadFileToSession` (src/graph.ts 450–553): reads
`session.uploadUrl` once into a local (a falsy value — absent or empty —
throws "Upload URL is not set"), then drives the chunk loop from the
initial session.  `fileSize` is `file.size`. -/
def uploadFileToSession {β : Type} (asSession : β → UploadSession)
    (transport : ℕ → ChunkRequest → HttpResponse β)
    (fileSize : Int) (session : UploadSession) (fuel : ℕ) :
    Except String (List ChunkRequest × UploadResult β) :=
  match session.uploadUrl with
  | none => .error "Upload URL is not set"
  | some uploadUrl =>
    if uploadUrl = "" then .error "Upload URL is not set"
    else .ok (uploadLoop asSession transport fileSize uploadUrl fuel 0 session)

/-! ### UploadQueue (src/upload-queue.ts) -/

/-- The mutable fields of an `UploadQueue` instance; `queue` is the length
of the pending-closure array (the closures themselves are irrelevant to the
counters). -/
structure QueueState where
  queue : ℕ
  running : ℕ
  successCount : ℕ
  failCount : ℕ
  totalFiles : ℕ
  maxConcurrency : ℕ
deriving DecidableEq, Repr

/-- `new UploadQueue(maxConcurrency, totalFiles)` (src/upload-queue.ts
12–15). -/
def initQueue (maxConcurrency totalFiles : ℕ) : QueueState :=
  ⟨0, 0, 0, 0, totalFiles, maxConcurrency⟩

/-- The `while` loop of `process()` with an explicit iteration bound:
every iteration shifts one pending task, so the loop runs at most
`s.queue` times; `process` below supplies exactly that fuel. -/
def processAux : ℕ → QueueState → QueueState
  | 0, s => s
  | fuel + 1, s =>
    if s.running < s.maxConcurrency ∧ 0 < s.queue then
      processAux fuel { s with queue := s.queue - 1, running := s.running + 1 }
    else s

/-- `process()` (src/upload-queue.ts 22–41): while a concurrency slot is
free and the backlog is non-empty, shift a task and start its body
(`running++`).  The started bodies finish later (`completeTask`). -/
def process (s : QueueState) : QueueState :=
  processAux s.queue s

/-- `add(task)` (src/upload-queue.ts 17–20): push the task, then
`process()`. -/
def addTask (s : QueueState) : QueueState :=
  process { s with queue := s.queue + 1 }

/-- One running task body finishing (the async IIFE of `process`,
src/upload-queue.ts 28–39): its counter bumps, the slot frees, and
`process()` runs again.  Only a running body can finish; with none running
the event cannot occur (no-op). -/
def completeTask (s : QueueState) (ok : Bool) : QueueState :=
  if 0 < s.running then
    process
      { s with
        running := s.running - 1
        successCount := if ok then s.successCount + 1 else s.successCount
        failCount := if ok then s.failCount else s.failCount + 1 }
  else s

/-- An event in the cooperative interleaving of one `UploadQueue`:
an `add(task)` call, or the completion (success/failure) of one running
task body. -/
inductive QueueEvent where
  | add : QueueEvent
  | complete : Bool → QueueEvent
deriving DecidableEq, Repr

/-- Apply one event. -/
def stepQueue (s : QueueState) : QueueEvent → QueueState
  | .add => addTask s
  | .complete ok => completeTask s ok

/-- Run an event sequence. -/
def runQueue (s : QueueState) : List QueueEvent → QueueState
  | [] => s
  | e :: es => runQueue (stepQueue s e) es

/-- Every state an event sequence passes through (head = start state). -/
def queueStates (s : QueueState) : List QueueEvent → List QueueState
  | [] => [s]
  | e :: es => s :: queueStates (stepQueue s e) es

/-- `waitForCompletion()`'s poll condition (src/upload-queue.ts 43–48): the
call returns exactly when the backlog is empty and nothing is running. -/
def waitDone (s : QueueState) : Bool :=
  s.queue == 0 && s.running == 0

/-- The record returned by `getStats()` (src/upload-queue.ts 50–56). -/
structure QueueStats where
  success : ℕ
  failed : ℕ
  total : ℕ
deriving DecidableEq, Repr

/-- `getStats()` (src/upload-queue.ts 50–56). -/
def getStats (s : QueueState) : QueueStats :=
  ⟨s.successCount, s.failCount, s.totalFiles⟩

/-- The state invariant of an `UploadQueue` after `added` calls to `add`:
the configuration fields are fixed, at most `maxC` bodies run, the backlog
is non-empty only while the pool is saturated, and every added task is
accounted for exactly once (pending, running, or counted). -/
def QueueInv (maxC total added : ℕ) (s : QueueState) : Prop :=
  s.maxConcurrency = maxC ∧ s.totalFiles = total ∧ s.running ≤ maxC ∧
  (0 < s.queue → s.running = maxC) ∧
  s.queue + s.running + s.successCount + s.failCount = added

/-! ## Lemmas: `JSNum` arithmetic -/

theorem pow10_eq (k : ℕ) : pow10 k = 10 ^ k := by
  induction k with
  | zero => rfl
  | succ n ih => rw [pow10, ih, pow_succ]; ring

theorem pow10_pos (k : ℕ) : (0 : Int) < pow10 k := by
  rw [pow10_eq]; positivity

namespace JSNum

theorem cross_le_iff (a b : Int) (i j : ℕ) :
    a * pow10 j ≤ b * pow10 i ↔ val a i ≤ val b j := by
  rw [val, val, div_le_div_iff₀ (by positivity) (by positivity), pow10_eq, pow10_eq]
  constructor
  · intro h
    exact_mod_cast h
  · intro h
    exact_mod_cast h

theorem jsLe_num_iff (a b : Int) (i j : ℕ) :
    jsLe (num a i) (num b j) = true ↔ val a i ≤ val b j := by
  simp only [jsLe, decide_eq_true_eq]
  exact cross_le_iff a b i j

theorem jsAdd_num (a b : Int) (i j : ℕ) :
    jsAdd (num a i) (num b j) = num (a * pow10 j + b * pow10 i) (i + j) := rfl

theorem val_add (a b : Int) (i j : ℕ) :
    val (a * pow10 j + b * pow10 i) (i + j) = val a i + val b j := by
  simp only [val, pow10_eq, pow_add]
  push_cast
  have hi : ((10 : ℚ) ^ i) ≠ 0 := by positivity
  have hj : ((10 : ℚ) ^ j) ≠ 0 := by positivity
  field_simp

theorem val_neg (a : Int) (i : ℕ) : val (-a) i = -(val a i) := by
  simp [val, neg_div]

theorem val_int (a : Int) : val a 0 = (a : ℚ) := by
  simp [val]

theorem jsMin_num (a b : Int) (i j : ℕ) :
    ∃ m k, jsMin (num a i) (num b j) = num m k ∧
      val m k = min (val a i) (val b j) := by
  simp only [jsMin]
  by_cases h : a * pow10 j ≤ b * pow10 i
  · exact ⟨a, i, by simp [h], (min_eq_left ((cross_le_iff a b i j).mp h)).symm⟩
  · refine ⟨b, j, by simp [h], (min_eq_right ?_).symm⟩
    have := (cross_le_iff a b i j).not.mp h
    linarith [not_le.mp this]

theorem jsMin_ne_nan {x y : JSNum} (hx : x ≠ nan) (hy : y ≠ nan) :
    jsMin x y ≠ nan := by
  cases x <;> cases y <;> simp_all [jsMin]
  split <;> simp

theorem jsMin_le_right (x : JSNum) (k : Int) (e : ℕ) (hx : x ≠ nan) :
    jsLe (jsMin x (num k e)) (num k e) = true := by
  cases x with
  | nan => exact absurd rfl hx
  | inf => simp [jsMin, jsLe]
  | negInf => simp [jsMin, jsLe]
  | num m j =>
    simp only [jsMin]
    split
    · simpa [jsLe]
    · simp [jsLe]

/-- The clamping chain of `calculateBytesRange` (lines 330–335): whenever
the parsed `start` is neither `NaN` nor `-Infinity` and the parsed raw
`end` is not `NaN`, the final `end` is at most `fileSize - 1` and the
returned size `end - start + 1` is at most `chunkSize`. -/
theorem clamp_bounds (start end0 : JSNum) (c fs : Int)
    (hs : start ≠ nan) (hsn : start ≠ negInf) (he : end0 ≠ nan) :
    jsLe (jsMin (jsMin end0 (jsAdd start (num (c - 1) 0))) (num (fs - 1) 0))
        (num (fs - 1) 0) = true ∧
    jsLe
      (jsAdd
        (jsSub (jsMin (jsMin end0 (jsAdd start (num (c - 1) 0))) (num (fs - 1) 0))
          start)
        (num 1 0))
      (num c 0) = true := by
  cases start with
  | nan => exact absurd rfl hs
  | negInf => exact absurd rfl hsn
  | inf =>
    have h1 : jsAdd inf (num (c - 1) 0) = inf := rfl
    rw [h1]
    have h2 : jsMin end0 inf = end0 := by
      cases end0 <;> simp_all [jsMin]
    rw [h2]
    refine ⟨jsMin_le_right end0 (fs - 1) 0 he, ?_⟩
    cases end0 with
    | nan => exact absurd rfl he
    | inf => simp [jsMin, jsSub, jsNeg, jsAdd, jsLe]
    | negInf => simp [jsMin, jsSub, jsNeg, jsAdd, jsLe]
    | num m j =>
      simp only [jsMin]
      split <;> simp [jsSub, jsNeg, jsAdd, jsLe]
  | num s i =>
    rw [jsAdd_num]
    set A := s * pow10 0 + (c - 1) * pow10 i with hA
    have hvalA : val A (i + 0) = val s i + (c - 1) := by
      rw [hA, val_add, val_int]; push_cast; ring
    have hend1 : jsMin end0 (num A (i + 0)) = negInf ∨
        ∃ m k, jsMin end0 (num A (i + 0)) = num m k ∧ val m k ≤ val s i + (c - 1) := by
      cases end0 with
      | nan => exact absurd rfl he
      | inf =>
        right
        exact ⟨A, i + 0, rfl, le_of_eq hvalA⟩
      | negInf => left; rfl
      | num m j =>
        right
        obtain ⟨p, q, hpq, hv⟩ := jsMin_num m A j (i + 0)
        exact ⟨p, q, hpq, by rw [hv, ← hvalA]; exact min_le_right _ _⟩
    rcases hend1 with h | ⟨m, k, hmk, hv⟩
    · rw [h]
      have h2 : jsMin (negInf : JSNum) (num (fs - 1) 0) = negInf := rfl
      rw [h2]
      exact ⟨rfl, rfl⟩
    · rw [hmk]
      obtain ⟨p, q, hpq, hvp⟩ := jsMin_num m (fs - 1) k 0
      rw [hpq]
      constructor
      · rw [jsLe_num_iff, hvp, val_int]
        exact min_le_right _ _
      · have hsub : jsSub (num p q) (num s i) =
            num (p * pow10 i + -s * pow10 q) (q + i) := rfl
        rw [hsub]
        have h1 : jsAdd (num (p * pow10 i + -s * pow10 q) (q + i)) (num 1 0) =
            num ((p * pow10 i + -s * pow10 q) * pow10 0 + 1 * pow10 (q + i))
              (q + i + 0) := rfl
        rw [h1, jsLe_num_iff]
        have hv1 : val ((p * pow10 i + -s * pow10 q) * pow10 0 + 1 * pow10 (q + i))
            (q + i + 0) = (val p q - val s i) + 1 := by
          rw [val_add, val_add, val_neg, val_int]
          push_cast; ring
        rw [hv1, val_int]
        have hple : val p q ≤ val s i + (c - 1) := by
          rw [hvp]
          exact le_trans (min_le_left _ _) hv
        linarith

end JSNum

/-! ## Lemmas: `calculateBytesRange` under satisfied preconditions -/

theorem calcRange_no_ranges (fs cs : Int) (u : Option String)
    (hmin : MIN_CHUNK_SIZE ≤ cs) (hmax : cs ≤ MAX_CHUNK_SIZE)
    (hmod : cs % MIN_CHUNK_SIZE = 0) (hfs : cs ≤ fs)
    (r? : Option (List (List Char))) (hr : r? = none ∨ r? = some []) :
    calculateBytesRange fs cs ⟨u, r?⟩ =
      .ok ⟨.num 0 0, .num (cs - 1) 0, .num cs 0⟩ := by
  have h1 : ¬(cs < MIN_CHUNK_SIZE ∨ cs > MAX_CHUNK_SIZE) := by
    rw [not_or]
    exact ⟨not_lt.mpr hmin, not_lt.mpr hmax⟩
  have h2 : ¬(cs % MIN_CHUNK_SIZE ≠ 0) := by simpa using hmod
  have h3 : ¬(fs < cs) := not_lt.mpr hfs
  rcases hr with rfl | rfl <;>
    · unfold calculateBytesRange
      rw [if_neg h1, if_neg h2, if_neg h3]

theorem calcRange_cons (fs cs : Int) (u : Option String)
    (entry : List Char) (rest : List (List Char))
    (hmin : MIN_CHUNK_SIZE ≤ cs) (hmax : cs ≤ MAX_CHUNK_SIZE)
    (hmod : cs % MIN_CHUNK_SIZE = 0) (hfs : cs ≤ fs) :
    calculateBytesRange fs cs ⟨u, some (entry :: rest)⟩ =
      .ok ⟨rangeStart entry,
        jsMin (jsMin (rangeEnd0 cs entry)
            (jsAdd (rangeStart entry) (.num (cs - 1) 0)))
          (.num (fs - 1) 0),
        jsAdd
          (jsSub
            (jsMin (jsMin (rangeEnd0 cs entry)
                (jsAdd (rangeStart entry) (.num (cs - 1) 0)))
              (.num (fs - 1) 0))
            (rangeStart entry))
          (.num 1 0)⟩ := by
  have h1 : ¬(cs < MIN_CHUNK_SIZE ∨ cs > MAX_CHUNK_SIZE) := by
    rw [not_or]
    exact ⟨not_lt.mpr hmin, not_lt.mpr hmax⟩
  have h2 : ¬(cs % MIN_CHUNK_SIZE ≠ 0) := by simpa using hmod
  have h3 : ¬(fs < cs) := not_lt.mpr hfs
  unfold calculateBytesRange
  rw [if_neg h1, if_neg h2, if_neg h3]

/-! ## Lemmas: parsing digit entries -/

theorem digit_not_ws {c : Char} (h : c.isDigit = true) :
    c.isWhitespace = false := by
  by_contra hw
  rw [Bool.not_eq_false] at hw
  simp only [Char.isWhitespace, Bool.or_eq_true, decide_eq_true_eq,
    or_assoc] at hw
  rcases hw with h1 | h1 | h1 | h1 <;> subst h1 <;> exact absurd h (by decide)

theorem digit_ne_of {c : Char} (h : c.isDigit = true) (d : Char)
    (hd : d.isDigit = false) : c ≠ d := by
  intro he
  rw [he, hd] at h
  cases h

theorem dropWhile_ws_of_digits {l : List Char}
    (h : ∀ c ∈ l, c.isDigit = true) :
    l.dropWhile Char.isWhitespace = l := by
  cases l with
  | nil => rfl
  | cons a t =>
    rw [List.dropWhile_cons, digit_not_ws (h a (by simp))]
    simp

theorem trimChars_digits {l : List Char} (h : ∀ c ∈ l, c.isDigit = true) :
    trimChars l = l := by
  unfold trimChars
  rw [dropWhile_ws_of_digits h,
    dropWhile_ws_of_digits (fun c hc => h c (List.mem_reverse.mp hc)),
    List.reverse_reverse]

theorem takeWhile_digits {l : List Char} (h : ∀ c ∈ l, c.isDigit = true) :
    l.takeWhile Char.isDigit = l := by
  induction l with
  | nil => rfl
  | cons a t ih =>
    simp [List.takeWhile_cons, h a (by simp), ih fun c hc => h c (by simp [hc])]

theorem jsNumUnsigned_digits {l : List Char} (hne : l ≠ [])
    (h : ∀ c ∈ l, c.isDigit = true) :
    jsNumUnsigned l = .num (digitsVal l) 0 := by
  have hInf : l ≠ ['I', 'n', 'f', 'i', 'n', 'i', 't', 'y'] := by
    intro he
    have := h 'I' (by rw [he]; simp)
    exact absurd this (by decide)
  unfold jsNumUnsigned
  rw [if_neg hInf]
  simp only [takeWhile_digits h, List.drop_length]
  rw [if_neg hne]

theorem jsNumber_digits {l : List Char} (hne : l ≠ [])
    (h : ∀ c ∈ l, c.isDigit = true) :
    jsNumber l = .num (digitsVal l) 0 := by
  unfold jsNumber
  rw [trimChars_digits h]
  cases l with
  | nil => exact absurd rfl hne
  | cons a t =>
    have ha := h a (by simp)
    have hp : a ≠ '+' := digit_ne_of ha '+' (by decide)
    have hm : a ≠ '-' := digit_ne_of ha '-' (by decide)
    rw [show (match a :: t with
        | [] => JSNum.num 0 0
        | '+' :: rest => jsNumUnsigned rest
        | '-' :: rest => jsNeg (jsNumUnsigned rest)
        | t => jsNumUnsigned t) = jsNumUnsigned (a :: t) from by
      split
      · simp_all
      · next heq => rw [show a = '+' from (List.cons.injEq .. |>.mp heq).1] at hp; simp at hp
      · next heq => rw [show a = '-' from (List.cons.injEq .. |>.mp heq).1] at hm; simp at hm
      · rfl]
    exact jsNumUnsigned_digits hne h

theorem jsSplit_no_sep {sep : Char} {l : List Char} (h : sep ∉ l) :
    jsSplit sep l = [l] := by
  induction l with
  | nil => rfl
  | cons a t ih =>
    have ha : ¬(a = sep) := fun he => h (by simp [he])
    have ht : sep ∉ t := fun hm => h (by simp [hm])
    rw [jsSplit, if_neg ha, ih ht]

theorem jsSplit_append_sep {sep : Char} {l : List Char} (h : sep ∉ l)
    (rest : List Char) :
    jsSplit sep (l ++ sep :: rest) = l :: jsSplit sep rest := by
  induction l with
  | nil => simp [jsSplit]
  | cons a t ih =>
    have ha : ¬(a = sep) := fun he => h (by simp [he])
    have ht : sep ∉ t := fun hm => h (by simp [hm])
    rw [List.cons_append, jsSplit, if_neg ha, ih ht]

theorem dash_notin_digits {l : List Char} (h : ∀ c ∈ l, c.isDigit = true) :
    '-' ∉ l :=
  fun hm => absurd (h '-' hm) (by decide)

theorem rangeStart_digits_dash {ds : List Char} (hne : ds ≠ [])
    (h : ∀ c ∈ ds, c.isDigit = true) :
    rangeStart (ds ++ ['-']) = .num (digitsVal ds) 0 := by
  unfold rangeStart
  rw [show ds ++ ['-'] = ds ++ '-' :: [] from rfl,
    jsSplit_append_sep (dash_notin_digits h)]
  simp only [List.headD_cons, ne_eq, hne, not_false_iff, if_true]
  exact jsNumber_digits hne h

theorem rangeEnd0_digits_dash {ds : List Char} (cs : Int) (hne : ds ≠ [])
    (h : ∀ c ∈ ds, c.isDigit = true) :
    rangeEnd0 cs (ds ++ ['-']) = .num ((digitsVal ds : Int) + (cs - 1)) 0 := by
  unfold rangeEnd0
  rw [show ds ++ ['-'] = ds ++ '-' :: [] from rfl,
    jsSplit_append_sep (dash_notin_digits h)]
  simp only [jsSplit, List.get?_cons_succ, List.get?_cons_zero]
  rw [if_neg (by simp)]
  rw [show ds ++ '-' :: ([] : List Char) = ds ++ ['-'] from rfl,
    rangeStart_digits_dash hne h]
  simp [jsAdd, pow10]

/-! ## Claim theorems -/

/-- C1 (counterexample): the claim quantifies over *every* session value,
but a first expected-ranges entry whose components do not parse as numbers
— here `"z-"` — makes `Number("z")` `NaN`; `NaN` propagates through the
clamps, and the returned size and end satisfy neither `size <= chunkSize`
nor `end <= fileSize - 1` (a JS `<=` comparison with `NaN` is false), with
`chunkSize = fileSize = 327680` perfectly valid. -/
theorem calculateBytesRange_nan_entry_breaks_bounds :
    ∃ r, calculateBytesRange 327680 327680
        ⟨some "u", some [['z', '-']]⟩ = .ok r ∧
      jsLe r.chunkSize (.num 327680 0) = false ∧
      jsLe r.end_ (.num (327680 - 1) 0) = false :=
  ⟨⟨.nan, .nan, .nan⟩, by decide, by decide, by decide⟩

/-- C1 (amended): for every `chunkSize` in `[327680, 52428800]` that is a
multiple of `327680`, every `fileSize >= chunkSize`, and every session
whose first expected-ranges entry (if any) parses to a non-`NaN` start and
raw end (the start, produced by splitting on `"-"`, can never carry a
minus sign, so `-Infinity` is listed only for completeness), the returned
range satisfies `end - start + 1 <= chunkSize` and `end <= fileSize - 1`. -/
theorem calculateBytesRange_bounds (fs cs : Int) (session : UploadSession)
    (hmin : 327680 ≤ cs) (hmax : cs ≤ 52428800)
    (hmod : cs % 327680 = 0) (hfs : cs ≤ fs)
    (hparse : ∀ entry rest,
      session.nextExpectedRanges = some (entry :: rest) →
        rangeStart entry ≠ .nan ∧ rangeStart entry ≠ .negInf ∧
          rangeEnd0 cs entry ≠ .nan) :
    ∃ r, calculateBytesRange fs cs session = .ok r ∧
      jsLe r.chunkSize (.num cs 0) = true ∧
      jsLe r.end_ (.num (fs - 1) 0) = true := by
  have hmax' : cs ≤ MAX_CHUNK_SIZE := by
    rw [MAX_CHUNK_SIZE]; omega
  obtain ⟨u, r?⟩ := session
  match r? with
  | none =>
    refine ⟨_, calcRange_no_ranges fs cs u hmin hmax' hmod hfs none (Or.inl rfl),
      ?_, ?_⟩
    · rw [JSNum.jsLe_num_iff]
    · rw [JSNum.jsLe_num_iff, JSNum.val_int, JSNum.val_int]
      have : (cs : ℚ) ≤ (fs : ℚ) := by exact_mod_cast hfs
      push_cast
      linarith
  | some [] =>
    refine ⟨_, calcRange_no_ranges fs cs u hmin hmax' hmod hfs (some [])
      (Or.inr rfl), ?_, ?_⟩
    · rw [JSNum.jsLe_num_iff]
    · rw [JSNum.jsLe_num_iff, JSNum.val_int, JSNum.val_int]
      have : (cs : ℚ) ≤ (fs : ℚ) := by exact_mod_cast hfs
      push_cast
      linarith
  | some (entry :: rest) =>
    obtain ⟨hs, hsn, he⟩ := hparse entry rest rfl
    obtain ⟨hend, hsize⟩ :=
      JSNum.clamp_bounds (rangeStart entry) (rangeEnd0 cs entry) cs fs hs hsn he
    exact ⟨_, calcRange_cons fs cs u entry rest hmin hmax' hmod hfs, hsize, hend⟩

/-- C1 (witness for the amended theorem): concrete instance with
`chunkSize = fileSize = 327680` and a session with no expected ranges. -/
theorem calculateBytesRange_bounds_witness :
    ∃ r, calculateBytesRange 327680 327680 ⟨some "u", none⟩ = .ok r ∧
      jsLe r.chunkSize (.num 327680 0) = true ∧
      jsLe r.end_ (.num (327680 - 1) 0) = true :=
  calculateBytesRange_bounds 327680 327680 ⟨some "u", none⟩ (by decide)
    (by decide) (by decide) (by decide)
    (by intro entry rest h; exact absurd h (by simp))

/-- C8: `calculateBytesRange` fails with a thrown validation error — and
returns no range — whenever `chunkSize` is outside `[327680, 52428800]`,
or `chunkSize` is not an exact multiple of `327680`, or
`fileSize < chunkSize`. -/
theorem calculateBytesRange_precondition_errors (fs cs : Int)
    (session : UploadSession)
    (h : cs < 327680 ∨ 52428800 < cs ∨ cs % 327680 ≠ 0 ∨ fs < cs) :
    ∃ e, calculateBytesRange fs cs session = .error e := by
  by_cases h1 : cs < MIN_CHUNK_SIZE ∨ cs > MAX_CHUNK_SIZE
  · exact ⟨.chunkSizeOutOfRange,
      by unfold calculateBytesRange; rw [if_pos h1]⟩
  · by_cases h2 : cs % MIN_CHUNK_SIZE ≠ 0
    · exact ⟨.chunkSizeNotMultiple,
        by unfold calculateBytesRange; rw [if_neg h1, if_pos h2]⟩
    · by_cases h3 : fs < cs
      · exact ⟨.fileSmallerThanChunk,
          by unfold calculateBytesRange; rw [if_neg h1, if_neg h2, if_pos h3]⟩
      · exfalso
        rw [MIN_CHUNK_SIZE] at h1 h2
        rw [MAX_CHUNK_SIZE] at h1
        rcases h with h | h | h | h
        · exact h1 (Or.inl h)
        · refine h1 (Or.inr ?_)
          omega
        · exact h2 h
        · exact h3 h

/-- C8 (witness): `chunkSize = 327681` is in range but not a multiple of
`327680`, so the call fails. -/
theorem calculateBytesRange_precondition_errors_witness :
    ∃ e, calculateBytesRange 655360 327681 ⟨some "u", none⟩ = .error e :=
  calculateBytesRange_precondition_errors 655360 327681 ⟨some "u", none⟩
    (by decide)

/-- `rangeStart` of an entry beginning with `"-"` (missing start). -/
theorem rangeStart_leading_dash (tail : List Char) :
    rangeStart ('-' :: tail) = .num 0 0 := by
  unfold rangeStart
  rw [jsSplit, if_pos rfl]
  simp

/-- C9: under satisfied preconditions, `calculateBytesRange` consults only
the first expected-ranges entry; a missing or empty sequence yields
`start = 0`, `end = chunkSize - 1`; a first entry `"<digits>-"` (blank
end) yields the parsed start and `end = min(start + chunkSize - 1,
fileSize - 1)`; a first entry with a missing start (leading `"-"`) is
treated as `start = 0`. -/
theorem calculateBytesRange_first_entry (fs cs : Int) (u : Option String)
    (hmin : 327680 ≤ cs) (hmax : cs ≤ 52428800)
    (hmod : cs % 327680 = 0) (hfs : cs ≤ fs) :
    (calculateBytesRange fs cs ⟨u, none⟩ =
        .ok ⟨.num 0 0, .num (cs - 1) 0, .num cs 0⟩) ∧
    (calculateBytesRange fs cs ⟨u, some []⟩ =
        .ok ⟨.num 0 0, .num (cs - 1) 0, .num cs 0⟩) ∧
    (∀ entry rest, calculateBytesRange fs cs ⟨u, some (entry :: rest)⟩ =
        calculateBytesRange fs cs ⟨u, some [entry]⟩) ∧
    (∀ ds rest, ds ≠ [] → (∀ c ∈ ds, c.isDigit = true) →
        ∃ r, calculateBytesRange fs cs ⟨u, some ((ds ++ ['-']) :: rest)⟩ =
            .ok r ∧
          r.start = .num (digitsVal ds) 0 ∧
          r.end_ = jsMin (.num ((digitsVal ds : Int) + (cs - 1)) 0)
            (.num (fs - 1) 0)) ∧
    (∀ tail rest,
        ∃ r, calculateBytesRange fs cs ⟨u, some (('-' :: tail) :: rest)⟩ =
            .ok r ∧ r.start = .num 0 0) := by
  have hmax' : cs ≤ MAX_CHUNK_SIZE := by rw [MAX_CHUNK_SIZE]; omega
  refine ⟨calcRange_no_ranges fs cs u hmin hmax' hmod hfs none (Or.inl rfl),
    calcRange_no_ranges fs cs u hmin hmax' hmod hfs (some []) (Or.inr rfl),
    ?_, ?_, ?_⟩
  · intro entry rest
    rw [calcRange_cons fs cs u entry rest hmin hmax' hmod hfs,
      calcRange_cons fs cs u entry [] hmin hmax' hmod hfs]
  · intro ds rest hne hd
    refine ⟨_, calcRange_cons fs cs u (ds ++ ['-']) rest hmin hmax' hmod hfs,
      rangeStart_digits_dash hne hd, ?_⟩
    rw [rangeEnd0_digits_dash cs hne hd, rangeStart_digits_dash hne hd]
    have h1 : jsAdd (.num (digitsVal ds) 0) (.num (cs - 1) 0) =
        JSNum.num ((digitsVal ds : Int) + (cs - 1)) 0 := by
      simp [jsAdd, pow10]
    rw [h1]
    have h2 : jsMin (JSNum.num ((digitsVal ds : Int) + (cs - 1)) 0)
        (JSNum.num ((digitsVal ds : Int) + (cs - 1)) 0) =
        JSNum.num ((digitsVal ds : Int) + (cs - 1)) 0 := by
      simp [jsMin]
    rw [h2]
  · intro tail rest
    exact ⟨_, calcRange_cons fs cs u ('-' :: tail) rest hmin hmax' hmod hfs,
      rangeStart_leading_dash tail⟩

/-- C9 (witness): the spec's own example — entry `"1000-"`,
`chunkSize = 5242880`, `fileSize = 10485760`. -/
theorem calculateBytesRange_first_entry_witness :
    ∃ r, calculateBytesRange 10485760 5242880
        ⟨some "u", some [['1', '0', '0', '0', '-']]⟩ = .ok r ∧
      r.start = .num (digitsVal ['1', '0', '0', '0']) 0 ∧
      r.end_ = jsMin (.num ((digitsVal ['1', '0', '0', '0'] : Int) +
          (5242880 - 1)) 0) (.num (10485760 - 1) 0) :=
  (calculateBytesRange_first_entry 10485760 5242880 (some "u") (by decide)
      (by decide) (by decide) (by decide)).2.2.2.1
    ['1', '0', '0', '0'] [] (by decide) (by decide)

/-- C10 (counterexample): the claim says the end is clamped to
`fileSize - 1` whenever the entry's start exceeds `fileSize - 1`; but with
an explicit end — entry `"400000-5"`, `fileSize = chunkSize = 327680` —
the start `400000` exceeds `fileSize - 1 = 327679` and the returned end is
the explicit `5`, not `327679`. -/
theorem calculateBytesRange_overrun_explicit_end :
    ∃ r, calculateBytesRange 327680 327680
        ⟨some "u", some [['4', '0', '0', '0', '0', '0', '-', '5']]⟩ =
          .ok r ∧
      r.start = .num 400000 0 ∧ ((327680 - 1 : Int) < 400000) ∧
      r.end_ ≠ .num (327680 - 1) 0 :=
  ⟨⟨.num 400000 0, .num 5 0, .num (-399994) 0⟩, by decide, by decide,
    by decide, by decide⟩

/-- C10 (amended): under satisfied preconditions, when the first entry is
open-ended — `"<digits>-"` — with a start offset beyond `fileSize - 1`,
`calculateBytesRange` raises no error, returns the start unchanged (the
server-supplied start is never validated against the file size), clamps
the end to `fileSize - 1 < start`, and the returned size field
`end - start + 1 = fileSize - start` is zero or negative.  (With an
explicit numeric end the end is `min(end, fileSize - 1)` instead; the size
remains non-positive.) -/
theorem calculateBytesRange_overrun_open_end (fs cs : Int)
    (u : Option String) (ds : List Char) (rest : List (List Char))
    (hne : ds ≠ []) (hd : ∀ c ∈ ds, c.isDigit = true)
    (hmin : 327680 ≤ cs) (hmax : cs ≤ 52428800) (hmod : cs % 327680 = 0)
    (hfs : cs ≤ fs) (hover : fs - 1 < (digitsVal ds : Int)) :
    calculateBytesRange fs cs ⟨u, some ((ds ++ ['-']) :: rest)⟩ =
      .ok ⟨.num (digitsVal ds) 0, .num (fs - 1) 0,
        .num (fs - (digitsVal ds : Int)) 0⟩ ∧
    fs - (digitsVal ds : Int) ≤ 0 := by
  have hmax' : cs ≤ MAX_CHUNK_SIZE := by rw [MAX_CHUNK_SIZE]; omega
  constructor
  · rw [calcRange_cons fs cs u (ds ++ ['-']) rest hmin hmax' hmod hfs,
      rangeEnd0_digits_dash cs hne hd, rangeStart_digits_dash hne hd]
    have h1 : jsAdd (.num (digitsVal ds) 0) (.num (cs - 1) 0) =
        JSNum.num ((digitsVal ds : Int) + (cs - 1)) 0 := by
      simp [jsAdd, pow10]
    rw [h1]
    have h2 : jsMin (JSNum.num ((digitsVal ds : Int) + (cs - 1)) 0)
        (JSNum.num ((digitsVal ds : Int) + (cs - 1)) 0) =
        JSNum.num ((digitsVal ds : Int) + (cs - 1)) 0 := by
      simp [jsMin]
    rw [h2]
    have h3 : jsMin (JSNum.num ((digitsVal ds : Int) + (cs - 1)) 0)
        (JSNum.num (fs - 1) 0) = JSNum.num (fs - 1) 0 := by
      simp only [jsMin]
      rw [if_neg]
      simp only [pow10]
      omega
    rw [h3]
    have h4 : jsAdd (jsSub (JSNum.num (fs - 1) 0)
        (JSNum.num (digitsVal ds) 0)) (.num 1 0) =
        JSNum.num (fs - (digitsVal ds : Int)) 0 := by
      simp only [jsSub, jsNeg, jsAdd, pow10]
      norm_num
      omega
    rw [h4]
  · omega

/-- C10 (witness for the amended theorem): entry `"400000-"`,
`fileSize = chunkSize = 327680`: start `400000 > 327679`, end `327679`,
size `-72320 <= 0`. -/
theorem calculateBytesRange_overrun_open_end_witness :
    calculateBytesRange 327680 327680
        ⟨some "u", some [['4', '0', '0', '0', '0', '0', '-']]⟩ =
      .ok ⟨.num (digitsVal ['4', '0', '0', '0', '0', '0']) 0,
        .num (327680 - 1) 0,
        .num (327680 - (digitsVal ['4', '0', '0', '0', '0', '0'] : Int)) 0⟩ ∧
    (327680 : Int) - (digitsVal ['4', '0', '0', '0', '0', '0'] : Int) ≤ 0 :=
  calculateBytesRange_overrun_open_end 327680 327680 (some "u")
    ['4', '0', '0', '0', '0', '0'] [] (by decide) (by decide) (by decide)
    (by decide) (by decide) (by decide) (by decide)

/-! ## Lemmas: retry policy -/

/-- Any error carrying `status = 503` is classified retryable, whatever its
other fields: every branch of the classification says yes. -/
theorem retryable_of_status_503 (e : JsError) (h : e.status = some 503) :
    isRetryableError e = true := by
  unfold isRetryableError
  split
  · rfl
  · split
    · rfl
    · rw [h]
      simp [isRetryableStatus]

/-- For an error that reaches the status check — no network flag, no
transient substring — with a truthy numeric status, classification is
exactly `isRetryableStatus`. -/
theorem isRetryableError_status (e : JsError) (s : Int)
    (hflag : e.isNetworkError = false)
    (hmsg : messageMatchesTransient e.message = false)
    (hst : e.status = some s) (hs0 : s ≠ 0) :
    isRetryableError e = isRetryableStatus s := by
  unfold isRetryableError
  rw [hflag, hmsg, hst]
  simp [hs0]

/-- The loop body runs at most `rem + 1` times. -/
theorem retryLoop_calls_le {T : Type} (fn : ℕ → Except JsError T)
    (rand : ℕ → ℚ) (maxDelay : ℚ) :
    ∀ rem k delay, (retryLoop fn rand maxDelay k rem delay).calls ≤ rem + 1 := by
  intro rem
  induction rem with
  | zero =>
    intro k delay
    unfold retryLoop
    cases fn k <;> simp
  | succ n ih =>
    intro k delay
    unfold retryLoop
    cases fn k with
    | ok v => simp
    | error e =>
      simp only
      split
      · have := ih (k + 1) (min (delay * 2) maxDelay)
        simpa using Nat.add_le_add_right this 1
      · simp

/-- If the first `rem` attempts starting at `k` all fail retryably, the
loop runs all `rem + 1` attempts and its result is the last attempt's
outcome unchanged. -/
theorem retryLoop_all_retryable {T : Type} (fn : ℕ → Except JsError T)
    (rand : ℕ → ℚ) (maxDelay : ℚ) :
    ∀ rem k delay,
      (∀ j, j < rem → ∃ e, fn (k + j) = .error e ∧ isRetryableError e = true) →
      (retryLoop fn rand maxDelay k rem delay).result = fn (k + rem) ∧
      (retryLoop fn rand maxDelay k rem delay).calls = rem + 1 := by
  intro rem
  induction rem with
  | zero =>
    intro k delay _
    unfold retryLoop
    cases hk : fn k <;> simp [hk]
  | succ n ih =>
    intro k delay hfail
    obtain ⟨e0, he0, hr0⟩ := hfail 0 (Nat.succ_pos n)
    rw [Nat.add_zero] at he0
    unfold retryLoop
    rw [he0]
    simp only [hr0, if_true]
    have hnext := ih (k + 1) (min (delay * 2) maxDelay) fun j hj => by
      obtain ⟨e, he, hr⟩ := hfail (j + 1) (Nat.succ_lt_succ hj)
      exact ⟨e, by rwa [Nat.add_comm j 1, ← Nat.add_assoc] at he, hr⟩
    constructor
    · rw [hnext.1]
      congr 1
      omega
    · rw [hnext.2]

/-- Shape of the `i`-th sleep event: its base delay is
`min(initialDelay * 2^i, maxDelay)`, its jitter is the `Math.random()` draw
times `0.3` times that base, and the slept delay is the capped sum. -/
theorem retryLoop_sleep_spec {T : Type} (fn : ℕ → Except JsError T)
    (rand : ℕ → ℚ) (maxDelay : ℚ) :
    ∀ rem k d, 0 ≤ d → d ≤ maxDelay →
      ∀ i ev, (retryLoop fn rand maxDelay k rem d).sleeps.get? i = some ev →
        ev.delay = min (d * 2 ^ i) maxDelay ∧
        ev.jitter = rand (k + i) * (3 / 10) * ev.delay ∧
        ev.backoffDelay = min (ev.delay + ev.jitter) maxDelay := by
  intro rem
  induction rem with
  | zero =>
    intro k d _ _ i ev hev
    unfold retryLoop at hev
    cases hk : fn k <;> rw [hk] at hev <;> simp at hev
  | succ n ih =>
    intro k d hd0 hdM i ev hev
    unfold retryLoop at hev
    cases hk : fn k with
    | ok v => rw [hk] at hev; simp at hev
    | error e =>
      rw [hk] at hev
      simp only at hev
      by_cases hr : isRetryableError e = true
      · rw [if_pos hr] at hev
        simp only at hev
        cases i with
        | zero =>
          simp only [List.get?_cons_zero, Option.some.injEq] at hev
          subst hev
          refine ⟨?_, by rw [Nat.add_zero], rfl⟩
          rw [pow_zero, mul_one, min_eq_left hdM]
        | succ j =>
          rw [List.get?_cons_succ] at hev
          have hd0' : 0 ≤ min (d * 2) maxDelay :=
            le_min (by linarith) (le_trans hd0 hdM)
          have hdM' : min (d * 2) maxDelay ≤ maxDelay := min_le_right _ _
          obtain ⟨h1, h2, h3⟩ := ih (k + 1) (min (d * 2) maxDelay) hd0' hdM' j ev hev
          refine ⟨?_, ?_, h3⟩
          · rw [h1]
            by_cases hcap : d * 2 ≤ maxDelay
            · rw [min_eq_left hcap, pow_succ]
              ring_nf
            · push_neg at hcap
              rw [min_eq_right (le_of_lt hcap)]
              have hM0 : 0 ≤ maxDelay := le_trans hd0 hdM
              have hp : (1 : ℚ) ≤ 2 ^ j := one_le_pow₀ (by norm_num)
              rw [min_eq_right, min_eq_right]
              · calc maxDelay ≤ maxDelay * 2 ^ j := le_mul_of_one_le_right hM0 hp
                  _ ≤ d * 2 * 2 ^ j := by nlinarith
                  _ = d * 2 ^ (j + 1) := by ring
              · exact le_mul_of_one_le_right hM0 hp
          · rw [h2]
            have hkj : k + 1 + j = k + (j + 1) := by omega
            rw [hkj]
      · rw [if_neg hr] at hev
        simp at hev

/-! ## Claim theorems: retry policy -/

/-- C4 (counterexample): an operation whose single failure carries
`status: 400` but is also flagged `isNetworkError` *is* invoked again —
the network-flag check precedes the status check — and the error is not
propagated: the run returns the second attempt's success after two calls. -/
theorem retryWithBackoff_flagged_400_retried :
    (retryWithBackoff
        (fun k => if k = 0 then .error ⟨true, some 400, []⟩ else .ok (42 : ℕ))
        (fun _ => 0) 1 1000 30000).result = .ok 42 ∧
    (retryWithBackoff
        (fun k => if k = 0 then .error ⟨true, some 400, []⟩ else .ok (42 : ℕ))
        (fun _ => 0) 1 1000 30000).calls = 2 := by
  constructor <;> decide

/-- C4 (amended): for any `maxRetries >= 1`:
an operation failing with an error carrying status `503` on the first
`maxRetries` attempts (regardless of that error's other fields — every
classification branch retries a 503) and succeeding on attempt
`maxRetries` returns the success result after `maxRetries + 1` calls;
an operation whose first failure carries status `400` *and* reaches the
status check (no network flag, no transient substring in the message) is
never invoked again and that error propagates immediately; for errors
reaching the status check with a truthy status `s`, retryable iff
`s ∈ {429, 500, 502, 503, 504}`. -/
theorem retryWithBackoff_status_classification {T : Type}
    (fn : ℕ → Except JsError T) (rand : ℕ → ℚ) (maxRetries : ℕ)
    (initialDelay maxDelay : ℚ) (hm : 1 ≤ maxRetries) :
    ((∀ j, j < maxRetries → ∃ e, fn j = .error e ∧ e.status = some 503) →
      ∀ v, fn maxRetries = .ok v →
        (retryWithBackoff fn rand maxRetries initialDelay maxDelay).result =
            .ok v ∧
          (retryWithBackoff fn rand maxRetries initialDelay maxDelay).calls =
            maxRetries + 1) ∧
    (∀ e, fn 0 = .error e → e.isNetworkError = false →
      messageMatchesTransient e.message = false → e.status = some 400 →
        (retryWithBackoff fn rand maxRetries initialDelay maxDelay).result =
            .error e ∧
          (retryWithBackoff fn rand maxRetries initialDelay maxDelay).calls =
            1) ∧
    (∀ e s, e.isNetworkError = false →
      messageMatchesTransient e.message = false → e.status = some s →
      s ≠ 0 →
        (isRetryableError e = true ↔
          s = 429 ∨ s = 500 ∨ s = 502 ∨ s = 503 ∨ s = 504)) := by
  refine ⟨?_, ?_, ?_⟩
  · intro hfail v hv
    have h := retryLoop_all_retryable fn rand maxDelay maxRetries 0
      initialDelay fun j hj => by
        obtain ⟨e, he, hs⟩ := hfail j hj
        exact ⟨e, by simpa using he, retryable_of_status_503 e hs⟩
    rw [retryWithBackoff, h.1, h.2]
    simp [hv]
  · intro e he hflag hmsg hst
    have hr : isRetryableError e = false := by
      rw [isRetryableError_status e 400 hflag hmsg hst (by norm_num)]
      decide
    obtain ⟨m, rfl⟩ := Nat.exists_eq_add_of_le hm
    rw [retryWithBackoff]
    unfold retryLoop
    rw [he]
    simp only [Nat.add_comm 1 m]
    rw [if_neg (by simp [hr])]
    exact ⟨rfl, rfl⟩
  · intro e s hflag hmsg hst hs0
    rw [isRetryableError_status e s hflag hmsg hst hs0]
    unfold isRetryableStatus
    constructor
    · intro h
      rcases Bool.or_eq_true .. |>.mp h with h | h
      rotate_left
      · exact Or.inr (Or.inr (Or.inr (Or.inr (by simpa using h))))
      rcases Bool.or_eq_true .. |>.mp h with h | h
      rotate_left
      · exact Or.inr (Or.inr (Or.inr (Or.inl (by simpa using h))))
      rcases Bool.or_eq_true .. |>.mp h with h | h
      rotate_left
      · exact Or.inr (Or.inr (Or.inl (by simpa using h)))
      rcases Bool.or_eq_true .. |>.mp h with h | h
      · exact Or.inl (by simpa using h)
      · exact Or.inr (Or.inl (by simpa using h))
    · intro h
      rcases h with h | h | h | h | h <;> subst h <;> decide

/-- C4 (witness for the amended theorem): `maxRetries = 1`; a plain HTTP
error with status 503 on attempt 0, success on attempt 1. -/
theorem retryWithBackoff_status_classification_witness :
    (retryWithBackoff
        (fun k => if k = 0 then .error ⟨false, some 503, []⟩ else .ok (7 : ℕ))
        (fun _ => 0) 1 1000 30000).result = .ok 7 ∧
    (retryWithBackoff
        (fun k => if k = 0 then .error ⟨false, some 503, []⟩ else .ok (7 : ℕ))
        (fun _ => 0) 1 1000 30000).calls = 1 + 1 :=
  (retryWithBackoff_status_classification
      (fun k => if k = 0 then .error ⟨false, some 503, []⟩ else .ok (7 : ℕ))
      (fun _ => 0) 1 1000 30000 (by decide)).1
    (fun j hj => ⟨⟨false, some 503, []⟩, by
      interval_cases j
      · exact ⟨rfl, rfl⟩⟩)
    7 rfl

/-- C6: the attempt with index `maxRetries` is never followed by another
invocation of the operation — the call count never exceeds
`maxRetries + 1`, whatever the errors' classification — and when the loop
reaches the last attempt (all earlier attempts failed retryably) and that
attempt fails too, the error propagated to the caller is exactly the last
attempt's error object, unmodified. -/
theorem retryWithBackoff_last_attempt {T : Type} (fn : ℕ → Except JsError T)
    (rand : ℕ → ℚ) (maxRetries : ℕ) (initialDelay maxDelay : ℚ) :
    (retryWithBackoff fn rand maxRetries initialDelay maxDelay).calls ≤
        maxRetries + 1 ∧
    (∀ elast,
      (∀ j, j < maxRetries →
        ∃ e, fn j = .error e ∧ isRetryableError e = true) →
      fn maxRetries = .error elast →
        (retryWithBackoff fn rand maxRetries initialDelay maxDelay).result =
          .error elast) := by
  refine ⟨retryLoop_calls_le fn rand maxDelay maxRetries 0 initialDelay, ?_⟩
  intro elast hfail hlast
  have h := retryLoop_all_retryable fn rand maxDelay maxRetries 0 initialDelay
    fun j hj => by simpa using hfail j hj
  rw [retryWithBackoff, h.1]
  simpa using hlast

/-- C6 (witness): three attempts (`maxRetries = 2`), all failing with 503;
the third attempt's distinct error (message `"x"`) is the one returned. -/
theorem retryWithBackoff_last_attempt_witness :
    (retryWithBackoff
        (fun k => (.error ⟨false, some 503, if k = 2 then ['x'] else []⟩ :
          Except JsError ℕ))
        (fun _ => 0) 2 1000 30000).calls ≤ 2 + 1 ∧
    (retryWithBackoff
        (fun k => (.error ⟨false, some 503, if k = 2 then ['x'] else []⟩ :
          Except JsError ℕ))
        (fun _ => 0) 2 1000 30000).result =
      .error ⟨false, some 503, ['x']⟩ := by
  have h := retryWithBackoff_last_attempt
    (fun k => (.error ⟨false, some 503, if k = 2 then ['x'] else []⟩ :
      Except JsError ℕ))
    (fun _ => 0) 2 1000 30000
  exact ⟨h.1, h.2 ⟨false, some 503, ['x']⟩
    (fun j hj => ⟨⟨false, some 503, if j = 2 then ['x'] else []⟩, rfl, by
      interval_cases j <;> decide⟩)
    (by decide)⟩

/-- C7 (amended): every backoff sleep's computed `backoffDelay` is at most
`maxDelay`; and the `k`-th sleep's pre-cap value `delay + jitter` is at
least `initialDelay * 2^k` whenever `initialDelay * 2^k ≤ maxDelay` (once
the exponential exceeds `maxDelay`, the base delay is already capped at
`maxDelay`, and the pre-cap value can drop below `initialDelay * 2^k`). -/
theorem retryWithBackoff_backoff_bounds {T : Type}
    (fn : ℕ → Except JsError T) (rand : ℕ → ℚ) (maxRetries : ℕ)
    (initialDelay maxDelay : ℚ) (h0 : 0 ≤ initialDelay)
    (hIM : initialDelay ≤ maxDelay) (hrand : ∀ j, 0 ≤ rand j) :
    ∀ k ev,
      (retryWithBackoff fn rand maxRetries initialDelay
        maxDelay).sleeps.get? k = some ev →
      ev.backoffDelay ≤ maxDelay ∧
      (initialDelay * 2 ^ k ≤ maxDelay →
        initialDelay * 2 ^ k ≤ ev.delay + ev.jitter) := by
  intro k ev hev
  obtain ⟨h1, h2, h3⟩ := retryLoop_sleep_spec fn rand maxDelay maxRetries 0
    initialDelay h0 hIM k ev hev
  constructor
  · rw [h3]
    exact min_le_right _ _
  · intro hcap
    have hd : ev.delay = initialDelay * 2 ^ k := by
      rw [h1, min_eq_left hcap]
    have hdpos : 0 ≤ ev.delay := by
      rw [hd]
      positivity
    have hj : 0 ≤ ev.jitter := by
      rw [h2]
      have := hrand (0 + k)
      positivity
    rw [← hd]
    linarith

/-- C7 (counterexample): with the system defaults
`initialDelay = 1000`, `maxDelay = 30000` and `maxRetries = 6` (six
retryable 503 failures), the sleep at attempt `k = 5` has base delay
capped at `30000`, so with jitter `0` (a legal draw) the pre-cap value
`delay + jitter = 30000` is strictly below `initialDelay * 2^5 = 32000`:
the claimed lower bound fails.  The `<= maxDelay` half still holds. -/
theorem retryWithBackoff_lower_bound_fails :
    ∃ ev,
      (retryWithBackoff
          (fun k => if k < 6 then .error ⟨false, some 503, []⟩ else
            .ok (0 : ℕ))
          (fun _ => 0) 6 1000 30000).sleeps.get? 5 = some ev ∧
        ev.delay = 30000 ∧ ev.jitter = 0 ∧
        ev.delay + ev.jitter < 1000 * 2 ^ 5 ∧ ev.backoffDelay ≤ 30000 := by
  have hre : isRetryableError ⟨false, some 503, []⟩ = true := by decide
  refine ⟨⟨30000, 0, 30000⟩, ?_, rfl, rfl, by norm_num, by norm_num⟩
  norm_num [retryWithBackoff, retryLoop, hre, min_def]

/-- C7 (witness for the amended theorem): the first sleep of a
one-retry 503 run with the default delays is `⟨1000, 0, 1000⟩`; both
bounds hold at `k = 0`. -/
theorem retryWithBackoff_backoff_bounds_witness :
    (⟨1000, 0, 1000⟩ : SleepEvent).backoffDelay ≤ 30000 ∧
    ((1000 : ℚ) * 2 ^ 0 ≤ 30000 →
      (1000 : ℚ) * 2 ^ 0 ≤
        (⟨1000, 0, 1000⟩ : SleepEvent).delay +
          (⟨1000, 0, 1000⟩ : SleepEvent).jitter) := by
  have hre : isRetryableError ⟨false, some 503, []⟩ = true := by decide
  exact retryWithBackoff_backoff_bounds
    (fun k => if k = 0 then .error ⟨false, some 503, []⟩ else .ok (0 : ℕ))
    (fun _ => 0) 1 1000 30000 (by norm_num) (by norm_num)
    (fun _ => le_refl 0) 0 ⟨1000, 0, 1000⟩
    (by norm_num [retryWithBackoff, retryLoop, hre, min_def])

/-! ## Claim theorems: chunked upload loop -/

/-- C2: in the chunked upload loop, a PUT response with status `200` or
`201` terminates `uploadFileToSession`, returning the parsed response body
as the final `DriveItem`; any other (successful) response status makes the
parsed body replace the current session wholesale, and the loop performs
another iteration driven by that replacing session (the next range is
computed from it). -/
theorem uploadFileToSession_response_transitions {β : Type}
    (asSession : β → UploadSession)
    (transport : ℕ → ChunkRequest → HttpResponse β) (fs : Int)
    (session : UploadSession) (url : String)
    (hurl : session.uploadUrl = some url) (hne : url ≠ "") (fuel : ℕ)
    (range0 : BytesRange)
    (hcalc : calculateBytesRange fs uploadChunkSize session = .ok range0) :
    ((transport 0 ⟨url, range0.start, range0.end_, range0.chunkSize,
          fs⟩).status = 200 ∨
      (transport 0 ⟨url, range0.start, range0.end_, range0.chunkSize,
          fs⟩).status = 201 →
      uploadFileToSession asSession transport fs session (fuel + 1) =
        .ok ([⟨url, range0.start, range0.end_, range0.chunkSize, fs⟩],
          .completed (transport 0 ⟨url, range0.start, range0.end_,
            range0.chunkSize, fs⟩).body)) ∧
    (¬((transport 0 ⟨url, range0.start, range0.end_, range0.chunkSize,
          fs⟩).status = 200 ∨
        (transport 0 ⟨url, range0.start, range0.end_, range0.chunkSize,
          fs⟩).status = 201) →
      uploadFileToSession asSession transport fs session (fuel + 1) =
        .ok (⟨url, range0.start, range0.end_, range0.chunkSize, fs⟩ ::
            (uploadLoop asSession transport fs url fuel 1
              (asSession (transport 0 ⟨url, range0.start, range0.end_,
                range0.chunkSize, fs⟩).body)).1,
          (uploadLoop asSession transport fs url fuel 1
            (asSession (transport 0 ⟨url, range0.start, range0.end_,
              range0.chunkSize, fs⟩).body)).2)) := by
  have hwrap : uploadFileToSession asSession transport fs session (fuel + 1) =
      .ok (uploadLoop asSession transport fs url (fuel + 1) 0 session) := by
    unfold uploadFileToSession
    rw [hurl]
    show (if url = "" then (.error "Upload URL is not set" :
        Except String (List ChunkRequest × UploadResult β))
      else .ok (uploadLoop asSession transport fs url (fuel + 1) 0 session)) =
      .ok (uploadLoop asSession transport fs url (fuel + 1) 0 session)
    rw [if_neg hne]
  have hstep : uploadLoop asSession transport fs url (fuel + 1) 0 session =
      (let range := range0
       let req : ChunkRequest :=
         ⟨url, range.start, range.end_, range.chunkSize, fs⟩
       let response := transport 0 req
       if response.status = 200 ∨ response.status = 201 then
         ([req], .completed response.body)
       else
         let rest := uploadLoop asSession transport fs url fuel 1
           (asSession response.body)
         (req :: rest.1, rest.2)) := by
    conv_lhs => unfold uploadLoop
    rw [hcalc]
  constructor
  · intro hfin
    rw [hwrap, hstep]
    simp only [if_pos hfin]
  · intro hfin
    rw [hwrap, hstep]
    simp only [if_neg hfin]

/-- C2 (witness): a transport that answers `202` with a fresh session on
the first PUT and `201` on the second; both legs of the theorem applied
at fuel `1`, with the non-final leg's continuation evaluated. -/
theorem uploadFileToSession_response_transitions_witness :
    uploadFileToSession (fun s => s)
        (fun k _ => if k = 0 then ⟨202, ⟨some "u2", some [['0', '-']]⟩⟩
          else ⟨201, (⟨some "done", none⟩ : UploadSession)⟩)
        5242880 ⟨some "u1", none⟩ (1 + 1) =
      .ok ([⟨"u1", .num 0 0, .num 5242879 0, .num 5242880 0, 5242880⟩,
            ⟨"u1", .num 0 0, .num 5242879 0, .num 5242880 0, 5242880⟩],
        .completed ⟨some "done", none⟩) := by
  have h := (uploadFileToSession_response_transitions (fun s => s)
      (fun k _ => if k = 0 then ⟨202, ⟨some "u2", some [['0', '-']]⟩⟩
        else ⟨201, (⟨some "done", none⟩ : UploadSession)⟩)
      5242880 ⟨some "u1", none⟩ "u1" rfl (by decide) 1
      ⟨.num 0 0, .num 5242879 0, .num 5242880 0⟩ (by decide)).2
    (by decide)
  rw [h]
  decide

/-- C3 (counterexample): the first PUT's non-final response body carries a
*different* `uploadUrl` (`"u2"`), yet the second PUT still goes to the
initial session's `"u1"`: `uploadUrl` is read once into a `const` before
the loop (src/graph.ts line 462) and never re-read from the replacing
session. -/
theorem uploadFileToSession_second_put_keeps_initial_url :
    uploadFileToSession (fun s => s)
        (fun k _ => if k = 0 then ⟨202, ⟨some "u2", some [['0', '-']]⟩⟩
          else ⟨201, (⟨some "done", none⟩ : UploadSession)⟩)
        5242880 ⟨some "u1", none⟩ 2 =
      .ok ([⟨"u1", .num 0 0, .num 5242879 0, .num 5242880 0, 5242880⟩,
            ⟨"u1", .num 0 0, .num 5242879 0, .num 5242880 0, 5242880⟩],
        .completed ⟨some "done", none⟩) ∧
    (⟨202, (⟨some "u2", some [['0', '-']]⟩ : UploadSession)⟩ :
        HttpResponse UploadSession).body.uploadUrl = some "u2" ∧
    ("u1" : String) ≠ "u2" := by
  refine ⟨by decide, rfl, by decide⟩

/-- Every request the loop issues carries the `uploadUrl` it was started
with, whatever sessions later responses substitute. -/
theorem uploadLoop_urls {β : Type} (asSession : β → UploadSession)
    (transport : ℕ → ChunkRequest → HttpResponse β) (fs : Int)
    (url : String) :
    ∀ fuel k sess req,
      req ∈ (uploadLoop asSession transport fs url fuel k sess).1 →
        req.url = url := by
  intro fuel
  induction fuel with
  | zero =>
    intro k sess req hmem
    simp [uploadLoop] at hmem
  | succ n ih =>
    intro k sess req hmem
    unfold uploadLoop at hmem
    cases hc : calculateBytesRange fs uploadChunkSize sess with
    | error e => rw [hc] at hmem; simp at hmem
    | ok range =>
      rw [hc] at hmem
      simp only at hmem
      by_cases hfin : (transport k ⟨url, range.start, range.end_,
          range.chunkSize, fs⟩).status = 200 ∨
          (transport k ⟨url, range.start, range.end_,
            range.chunkSize, fs⟩).status = 201
      · rw [if_pos hfin] at hmem
        simp at hmem
        rw [hmem]
      · rw [if_neg hfin] at hmem
        simp only [List.mem_cons] at hmem
        rcases hmem with rfl | hmem
        · rfl
        · exact ih (k + 1) _ req hmem

/-- C3 (amended): every chunk PUT issued by `uploadFileToSession` targets
the `uploadUrl` captured from the *initial* session before the loop; in
particular, after a non-final response body has replaced the session
wholesale, the next iteration's PUT still goes to the initial `uploadUrl`
— the `uploadUrl` of the replacing session is ignored. -/
theorem uploadFileToSession_urls_initial {β : Type}
    (asSession : β → UploadSession)
    (transport : ℕ → ChunkRequest → HttpResponse β) (fs : Int)
    (session : UploadSession) (url : String) (fuel : ℕ)
    (hurl : session.uploadUrl = some url) (hne : url ≠ "") :
    ∀ reqs res,
      uploadFileToSession asSession transport fs session fuel =
          .ok (reqs, res) →
        ∀ req, req ∈ reqs → req.url = url := by
  intro reqs res hrun req hmem
  unfold uploadFileToSession at hrun
  rw [hurl] at hrun
  have hrun' : (if url = "" then (.error "Upload URL is not set" :
      Except String (List ChunkRequest × UploadResult β))
    else .ok (uploadLoop asSession transport fs url fuel 0 session)) =
      .ok (reqs, res) := hrun
  rw [if_neg hne] at hrun'
  have h := Except.ok.inj hrun'
  have hreqs : (uploadLoop asSession transport fs url fuel 0 session).1 =
      reqs := congrArg Prod.fst h
  rw [← hreqs] at hmem
  exact uploadLoop_urls asSession transport fs url fuel 0 session req hmem

/-- C3 (witness for the amended theorem): applied to the concrete two-PUT
run; the first issued request indeed targets `"u1"`. -/
theorem uploadFileToSession_urls_initial_witness :
    (⟨"u1", .num 0 0, .num 5242879 0, .num 5242880 0, 5242880⟩ : ChunkRequest).url =
      "u1" :=
  uploadFileToSession_urls_initial (fun s => s)
    (fun k _ => if k = 0 then ⟨202, ⟨some "u2", some [['0', '-']]⟩⟩
      else ⟨201, (⟨some "done", none⟩ : UploadSession)⟩)
    5242880 ⟨some "u1", none⟩ "u1" 2 rfl (by decide)
    [⟨"u1", .num 0 0, .num 5242879 0, .num 5242880 0, 5242880⟩,
     ⟨"u1", .num 0 0, .num 5242879 0, .num 5242880 0, 5242880⟩]
    (.completed ⟨some "done", none⟩) (by decide)
    ⟨"u1", .num 0 0, .num 5242879 0, .num 5242880 0, 5242880⟩ (by simp)

/-! ## Lemmas: `UploadQueue` -/

/-- The one-step unfolding of `process`: the fuelled loop and the
`while` loop it implements step identically. -/
theorem process_eq (s : QueueState) :
    process s =
      if s.running < s.maxConcurrency ∧ 0 < s.queue then
        process { s with queue := s.queue - 1, running := s.running + 1 }
      else s := by
  unfold process
  cases hq : s.queue with
  | zero =>
    simp only [processAux]
    rw [if_neg (by omega)]
  | succ q =>
    simp only [processAux, hq, Nat.succ_sub_one]

/-- What one `process()` call does: it only moves tasks from the backlog
into running slots (all other fields fixed, `queue + running` preserved),
never exceeds the concurrency ceiling, and stops only with an empty
backlog or a saturated pool. -/
theorem process_spec :
    ∀ (n : ℕ) (s : QueueState), s.queue ≤ n →
      ((process s).maxConcurrency = s.maxConcurrency ∧
        (process s).totalFiles = s.totalFiles ∧
        (process s).successCount = s.successCount ∧
        (process s).failCount = s.failCount) ∧
      (process s).queue + (process s).running = s.queue + s.running ∧
      (s.running ≤ s.maxConcurrency →
        (process s).running ≤ s.maxConcurrency) ∧
      (0 < (process s).queue →
        s.maxConcurrency ≤ (process s).running) := by
  intro n
  induction n with
  | zero =>
    intro s hq
    rw [process_eq, if_neg (by omega)]
    exact ⟨⟨rfl, rfl, rfl, rfl⟩, rfl, fun h => h, fun h => by omega⟩
  | succ n ih =>
    intro s hq
    by_cases hc : s.running < s.maxConcurrency ∧ 0 < s.queue
    · rw [process_eq, if_pos hc]
      obtain ⟨⟨m1, m2, m3, m4⟩, hsum, hle, hfull⟩ :=
        ih { s with queue := s.queue - 1, running := s.running + 1 }
          (by simp; omega)
      simp only at m1 m2 m3 m4 hsum hle hfull
      have hle2 := hle (by omega)
      refine ⟨⟨by omega, by omega, by omega, by omega⟩, by omega,
        fun _ => by omega, fun h => hfull h⟩
    · rw [process_eq, if_neg hc]
      exact ⟨⟨rfl, rfl, rfl, rfl⟩, rfl, fun h => h, fun h => by omega⟩

/-- `add(task)` preserves the queue invariant, with one more task
accounted for. -/
theorem addTask_inv {maxC total added : ℕ} {s : QueueState}
    (h : QueueInv maxC total added s) :
    QueueInv maxC total (added + 1) (addTask s) := by
  obtain ⟨hmc, htot, hrun, hfull, hsum⟩ := h
  unfold addTask
  obtain ⟨⟨m1, m2, m3, m4⟩, hsum2, hle, hfull2⟩ :=
    process_spec ({ s with queue := s.queue + 1 }).queue
      { s with queue := s.queue + 1 } (le_refl _)
  simp only at m1 m2 m3 m4 hsum2 hle hfull2
  have hle2 := hle (by omega)
  refine ⟨by omega, by omega, by omega, ?_, by omega⟩
  intro hq
  have := hfull2 hq
  omega

/-- A completion event preserves the queue invariant (same task count:
the finished task moves from `running` to a counter). -/
theorem completeTask_inv {maxC total added : ℕ} {s : QueueState}
    (ok : Bool) (h : QueueInv maxC total added s) :
    QueueInv maxC total added (completeTask s ok) := by
  obtain ⟨hmc, htot, hrun, hfull, hsum⟩ := h
  unfold completeTask
  by_cases hr : 0 < s.running
  · rw [if_pos hr]
    obtain ⟨⟨m1, m2, m3, m4⟩, hsum2, hle, hfull2⟩ :=
      process_spec ({ s with
        running := s.running - 1
        successCount := if ok then s.successCount + 1 else s.successCount
        failCount := if ok then s.failCount else s.failCount + 1 }).queue
        { s with
          running := s.running - 1
          successCount := if ok then s.successCount + 1 else s.successCount
          failCount := if ok then s.failCount else s.failCount + 1 }
        (le_refl _)
    simp only at m1 m2 m3 m4 hsum2 hle hfull2
    have hle2 := hle (by omega)
    have hcnt : (if ok then s.successCount + 1 else s.successCount) +
        (if ok then s.failCount else s.failCount + 1) =
        s.successCount + s.failCount + 1 := by
      cases ok <;> simp <;> omega
    refine ⟨by omega, by omega, by omega, ?_, by omega⟩
    intro hq
    have := hfull2 hq
    omega
  · rw [if_neg hr]
    exact ⟨hmc, htot, hrun, hfull, hsum⟩

/-- One event preserves the invariant for some task count. -/
theorem stepQueue_inv {maxC total added : ℕ} {s : QueueState}
    (e : QueueEvent) (h : QueueInv maxC total added s) :
    ∃ added', QueueInv maxC total added' (stepQueue s e) := by
  cases e with
  | add => exact ⟨added + 1, addTask_inv h⟩
  | complete ok => exact ⟨added, completeTask_inv ok h⟩

/-- Every state reached from an invariant-satisfying state keeps
`running ≤ maxConcurrency`. -/
theorem queueStates_running_le {maxC total : ℕ} :
    ∀ (events : List QueueEvent) (s : QueueState),
      (∃ added, QueueInv maxC total added s) →
      ∀ st ∈ queueStates s events, st.running ≤ maxC := by
  intro events
  induction events with
  | nil =>
    intro s hinv st hst
    simp only [queueStates, List.mem_singleton] at hst
    obtain ⟨a, _, _, hrun, _, _⟩ := hinv
    rw [hst]
    exact hrun
  | cons e es ih =>
    intro s hinv st hst
    simp only [queueStates, List.mem_cons] at hst
    rcases hst with rfl | hst
    · obtain ⟨a, _, _, hrun, _, _⟩ := hinv
      exact hrun
    · obtain ⟨a, ha⟩ := hinv
      obtain ⟨a', ha'⟩ := stepQueue_inv e ha
      exact ih (stepQueue s e) ⟨a', ha'⟩ st hst

/-- Under the invariant (with a positive ceiling), running a sequence of
completion events keeps the invariant and drives the finished-task count
`success + fail` to `min (previous + #events) added`: completions are
absorbed one per event until every added task is finished, after which
they are no-ops. -/
theorem runQueue_completions {maxC total added : ℕ} (hpos : 0 < maxC) :
    ∀ (os : List Bool) (s : QueueState), QueueInv maxC total added s →
      QueueInv maxC total added (runQueue s (os.map .complete)) ∧
      (runQueue s (os.map .complete)).successCount +
          (runQueue s (os.map .complete)).failCount =
        min (s.successCount + s.failCount + os.length) added := by
  intro os
  induction os with
  | nil =>
    intro s hinv
    refine ⟨hinv, ?_⟩
    obtain ⟨_, _, _, _, hsum⟩ := hinv
    simp only [List.map_nil, runQueue, List.length_nil, Nat.add_zero]
    omega
  | cons ok os ih =>
    intro s hinv
    simp only [List.map_cons, runQueue, stepQueue, List.length_cons]
    have hinv' : QueueInv maxC total added (completeTask s ok) :=
      completeTask_inv ok hinv
    obtain ⟨hfin, hcnt⟩ := ih (completeTask s ok) hinv'
    refine ⟨hfin, ?_⟩
    rw [hcnt]
    obtain ⟨hmc, htot, hrun, hfull, hsum⟩ := hinv
    by_cases hr : 0 < s.running
    · have hc : (completeTask s ok).successCount +
          (completeTask s ok).failCount =
          s.successCount + s.failCount + 1 := by
        unfold completeTask
        rw [if_pos hr]
        obtain ⟨⟨_, _, m3, m4⟩, _, _, _⟩ :=
          process_spec ({ s with
            running := s.running - 1
            successCount := if ok then s.successCount + 1 else s.successCount
            failCount := if ok then s.failCount else s.failCount + 1 }).queue
            { s with
              running := s.running - 1
              successCount := if ok then s.successCount + 1 else s.successCount
              failCount := if ok then s.failCount else s.failCount + 1 }
            (le_refl _)
        simp only at m3 m4
        rw [m3, m4]
        cases ok <;> simp <;> omega
      rw [hc]
      omega
    · have hq0 : s.queue = 0 := by
        by_contra hq
        have := hfull (by omega)
        omega
      have hc : completeTask s ok = s := by
        unfold completeTask
        rw [if_neg hr]
      rw [hc]
      omega

/-- `runQueue` over an appended event list runs the two parts in order. -/
theorem runQueue_append :
    ∀ (l1 l2 : List QueueEvent) (s : QueueState),
      runQueue s (l1 ++ l2) = runQueue (runQueue s l1) l2 := by
  intro l1
  induction l1 with
  | nil => intro l2 s; rfl
  | cons e es ih =>
    intro l2 s
    simp only [List.cons_append, List.append_eq, runQueue, ih]

/-! ## Claim theorem: `UploadQueue` -/

/-- C5: an `UploadQueue` with `maxConcurrency = 2`, `totalFiles = 5`, five
`add` calls, then any sequence of task-body completions: (i) no reachable
state ever has more than 2 task bodies running; (ii) `waitForCompletion`'s
poll condition (empty backlog, nothing running) holds exactly when at least
5 completions have occurred — it cannot return earlier; (iii) once it
holds, `getStats()` reports `total = 5` and `success + failed = 5`. -/
theorem uploadQueue_two_of_five (outcomes : List Bool) :
    (∀ st, st ∈ queueStates (initQueue 2 5)
        (List.replicate 5 .add ++ outcomes.map .complete) →
      st.running ≤ 2) ∧
    (waitDone (runQueue (initQueue 2 5)
        (List.replicate 5 .add ++ outcomes.map .complete)) = true ↔
      5 ≤ outcomes.length) ∧
    (waitDone (runQueue (initQueue 2 5)
        (List.replicate 5 .add ++ outcomes.map .complete)) = true →
      (getStats (runQueue (initQueue 2 5)
        (List.replicate 5 .add ++ outcomes.map .complete))).total = 5 ∧
      (getStats (runQueue (initQueue 2 5)
          (List.replicate 5 .add ++ outcomes.map .complete))).success +
        (getStats (runQueue (initQueue 2 5)
          (List.replicate 5 .add ++ outcomes.map .complete))).failed = 5) := by
  have hinit : QueueInv 2 5 0 (initQueue 2 5) :=
    ⟨rfl, rfl, by decide, fun h => absurd h (by decide), rfl⟩
  have h5 : runQueue (initQueue 2 5) (List.replicate 5 .add) =
      ⟨3, 2, 0, 0, 5, 2⟩ := by decide
  have hinv5 : QueueInv 2 5 5 (⟨3, 2, 0, 0, 5, 2⟩ : QueueState) :=
    ⟨rfl, rfl, by decide, fun _ => rfl, rfl⟩
  have hrw : runQueue (initQueue 2 5)
      (List.replicate 5 .add ++ outcomes.map .complete) =
      runQueue (⟨3, 2, 0, 0, 5, 2⟩ : QueueState) (outcomes.map .complete) := by
    rw [runQueue_append, h5]
  obtain ⟨hfin, hcnt⟩ :=
    @runQueue_completions 2 5 5 (by omega) outcomes
      (⟨3, 2, 0, 0, 5, 2⟩ : QueueState) hinv5
  obtain ⟨hmc, htot, hrun, hfull, hsum⟩ := hfin
  refine ⟨?_, ?_, ?_⟩
  · exact @queueStates_running_le 2 5 _ _ ⟨0, hinit⟩
  · rw [hrw]
    unfold waitDone
    simp only [Bool.and_eq_true, beq_iff_eq]
    simp only at hcnt
    constructor
    · rintro ⟨hq, hr⟩
      omega
    · intro hlen
      have : min (0 + 0 + outcomes.length) 5 = 5 := by omega
      omega
  · intro hdone
    rw [hrw] at hdone
    unfold waitDone at hdone
    simp only [Bool.and_eq_true, beq_iff_eq] at hdone
    rw [hrw]
    unfold getStats
    simp only
    constructor
    · exact htot
    · simp only at hcnt
      omega

/-- C5 (witness): the five-completion run `[true, true, true, false,
true]` finishes with `waitDone`, `total = 5` and `success + failed = 5`. -/
theorem uploadQueue_two_of_five_witness :
    waitDone (runQueue (initQueue 2 5)
      (List.replicate 5 .add ++
        ([true, true, true, false, true].map .complete))) = true ∧
    (getStats (runQueue (initQueue 2 5)
      (List.replicate 5 .add ++
        ([true, true, true, false, true].map .complete)))).total = 5 ∧
    (getStats (runQueue (initQueue 2 5)
        (List.replicate 5 .add ++
          ([true, true, true, false, true].map .complete)))).success +
      (getStats (runQueue (initQueue 2 5)
        (List.replicate 5 .add ++
          ([true, true, true, false, true].map .complete)))).failed = 5 := by
  have h := uploadQueue_two_of_five [true, true, true, false, true]
  have hd : waitDone (runQueue (initQueue 2 5)
      (List.replicate 5 .add ++
        ([true, true, true, false, true].map .complete))) = true :=
    h.2.1.mpr (by decide)
  exact ⟨hd, (h.2.2 hd).1, (h.2.2 hd).2⟩

end Uploader
